import Mathlib

/-!
Verification of the lightspeed-stack core: the rlsapi v1 request models
(`src/models/rlsapi/requests.py`) and the session-identifier utilities
(`src/utils/suid.py`).

Python strings are modelled as `List Char` (a Python `str` is a sequence of
code points).  Python library primitives used by the source — `str.strip`,
`int(x, 16)`, `uuid.UUID(hex)`, `str.replace`, `str.join` — are embedded
faithfully below; the whitespace set covers every Latin-1 character that
`str.isspace()` accepts, omitting only Unicode whitespace and digits
beyond U+00FF.
-/

set_option maxHeartbeats 1000000
set_option maxRecDepth 100000

namespace Lightspeed

/-- Python strings as sequences of characters. -/
abbrev PyStr := List Char

/-- Whitespace as recognised by `str.strip()` / `int()`: all twelve Latin-1
characters for which `str.isspace()` holds, including NEL (U+0085) and
NO-BREAK SPACE (U+00A0). -/
def isPySpace (c : Char) : Bool :=
  c == ' ' || c == '\t' || c == '\n' || c == '\r' || c == '\x0b' || c == '\x0c' ||
  c == '\x1c' || c == '\x1d' || c == '\x1e' || c == '\x1f' || c == '\x85' || c == '\xa0'

/-- Remove characters satisfying `p` from both ends (Python `str.strip(chars)`). -/
def stripEndsWhile (p : Char → Bool) (l : PyStr) : PyStr :=
  ((l.dropWhile p).reverse.dropWhile p).reverse

/-- Python `str.strip()`: remove leading and trailing whitespace. -/
def pyStrip (l : PyStr) : PyStr := stripEndsWhile isPySpace l

/-- Value of a hexadecimal digit character, upper or lower case:
code points 48-57 are the digits 0-9, 97-102 are a-f, 65-70 are A-F. -/
def hexVal (c : Char) : Option Nat :=
  if 48 ≤ c.toNat ∧ c.toNat ≤ 57 then some (c.toNat - 48)
  else if 97 ≤ c.toNat ∧ c.toNat ≤ 102 then some (c.toNat - 97 + 10)
  else if 65 ≤ c.toNat ∧ c.toNat ≤ 70 then some (c.toNat - 65 + 10)
  else none

/-- Continuation of Python's base-16 digit grammar after at least one digit:
a single underscore is permitted between digits, never doubled or trailing. -/
def hexTailVal (acc : Nat) : PyStr → Option Nat
  | [] => some acc
  | c :: rest =>
    if c = '_' then
      match rest with
      | [] => none
      | d :: rest2 =>
        match hexVal d with
        | some v => hexTailVal (acc * 16 + v) rest2
        | none => none
    else
      match hexVal c with
      | some v => hexTailVal (acc * 16 + v) rest
      | none => none

/-- A non-empty run of hex digits with optional single underscores between
digits, as accepted by Python `int(x, 16)` after sign and prefix handling. -/
def hexDigitsVal : PyStr → Option Nat
  | [] => none
  | c :: rest =>
    match hexVal c with
    | some v => hexTailVal v rest
    | none => none

/-- Magnitude part of Python `int(x, 16)`: an optional `0x`/`0X` prefix
(with one optional underscore directly after it) followed by hex digits. -/
def pyInt16Mag (l : PyStr) : Option Nat :=
  match l with
  | a :: b :: rest =>
    if a = '0' ∧ (b = 'x' ∨ b = 'X') then
      match rest with
      | c :: rest2 => if c = '_' then hexDigitsVal rest2 else hexDigitsVal rest
      | [] => hexDigitsVal []
    else hexDigitsVal l
  | _ => hexDigitsVal l

/-- Python `int(s, 16)`: strip surrounding whitespace, allow one optional
sign, then the magnitude grammar.  `none` models a raised `ValueError`. -/
def pyInt16Val? (s : PyStr) : Option Int :=
  match pyStrip s with
  | [] => none
  | c :: rest =>
    if c = '+' then (pyInt16Mag rest).map Int.ofNat
    else if c = '-' then (pyInt16Mag rest).map (fun n => -(n : Int))
    else (pyInt16Mag (c :: rest)).map Int.ofNat

/-- Scanner for `replaceAll`, structurally recursive on a fuel argument.
Every step consumes at least one character, so fuel `s.length` is enough;
on exhausted fuel the remaining input is returned unchanged. -/
def replaceAllAux (pat repl : PyStr) : Nat → PyStr → PyStr
  | _, [] => []
  | 0, s => s
  | fuel + 1, c :: rest =>
    if pat.isPrefixOf (c :: rest) then
      repl ++ replaceAllAux pat repl fuel (rest.drop (pat.length - 1))
    else c :: replaceAllAux pat repl fuel rest

/-- Python `str.replace(pat, repl)`: replace every occurrence, scanning left
to right without overlap.  (The sources only use non-empty patterns.) -/
def replaceAll (pat repl : PyStr) (s : PyStr) : PyStr :=
  if pat = [] then s else replaceAllAux pat repl s.length s

/-- The curly-brace characters stripped by `uuid.UUID` from both ends. -/
def isBrace (c : Char) : Bool := c == '\x7b' || c == '\x7d'

def urnPat : PyStr := "urn:".toList

def uuidPat : PyStr := "uuid:".toList

/-- CPython `uuid.UUID(hex=s)`: remove every occurrence of the text
`urn:` and then of `uuid:`, strip curly braces from both ends, remove all
hyphens; the remainder must be exactly 32 characters, parse under
`int(x, 16)`, and yield a value in `[0, 2^128)`.  `none` models a raised
`ValueError`. -/
def uuidVal? (s : PyStr) : Option Int :=
  let h1 := replaceAll urnPat [] s
  let h2 := replaceAll uuidPat [] h1
  let h3 := stripEndsWhile isBrace h2
  let h4 := h3.filter (fun c => c != '-')
  if h4.length = 32 then
    match pyInt16Val? h4 with
    | some v => if 0 ≤ v ∧ v < 2 ^ 128 then some v else none
    | none => none
  else none

/-- The llama-stack conversation-id marker, the five characters conv_. -/
def convMark : PyStr := "conv_".toList

/-- Model of `check_suid` from `src/utils/suid.py`, string branch: strip a leading
conv_ marker; a 48-character remainder must parse under `int(x, 16)`,
anything else must parse as a UUID (applied to the original string). -/
def check_suid (suid : PyStr) : Bool :=
  let hex_part := if convMark.isPrefixOf suid then suid.drop 5 else suid
  if hex_part.length = 48 then (pyInt16Val? hex_part).isSome
  else (uuidVal? suid).isSome

/-- A Python value as seen by `check_suid`: a string, or anything else
(the `isinstance(suid, str)` guard only distinguishes these two). -/
inductive PyObj where
  | str : PyStr → PyObj
  | nonStr : Nat → PyObj
deriving DecidableEq

/-- Model of `check_suid` including the `isinstance` guard on arbitrary values. -/
def check_suid_obj : PyObj → Bool
  | .str s => check_suid s
  | .nonStr _ => false

/-- Model of `normalize_conversation_id` from `src/utils/suid.py`. -/
def normalize_conversation_id (conversation_id : PyStr) : PyStr :=
  if convMark.isPrefixOf conversation_id then conversation_id.drop 5
  else conversation_id

/-- Model of `to_llama_stack_conversation_id` from `src/utils/suid.py`. -/
def to_llama_stack_conversation_id (conversation_id : PyStr) : PyStr :=
  if convMark.isPrefixOf conversation_id then conversation_id
  else convMark ++ conversation_id

/-- A Python exception of the kinds these sources can meet. -/
inductive PyErr where
  | valueError : PyStr → PyErr
  | typeError : PyStr → PyErr
deriving DecidableEq

/-- Python `int(s, 16)` with its raising behaviour explicit. -/
def pyInt16Run (s : PyStr) : Except PyErr Int :=
  match pyInt16Val? s with
  | some v => .ok v
  | none => .error (.valueError "invalid literal for int() with base 16".toList)

/-- Python `uuid.UUID(s)` with its raising behaviour explicit. -/
def uuidRun (s : PyStr) : Except PyErr Int :=
  match uuidVal? s with
  | some v => .ok v
  | none => .error (.valueError "badly formed hexadecimal UUID string".toList)

/-- Model of `check_suid` with the source's try/except structure kept: the 48-char
branch catches only `ValueError` (anything else would propagate), the UUID
branch catches `ValueError` and `TypeError`. -/
def check_suid_run (v : PyObj) : Except PyErr Bool :=
  match v with
  | .nonStr _ => .ok false
  | .str suid =>
    let hex_part := if convMark.isPrefixOf suid then suid.drop 5 else suid
    if hex_part.length = 48 then
      match pyInt16Run hex_part with
      | .ok _ => .ok true
      | .error (.valueError _) => .ok false
      | .error e => .error e
    else
      match uuidRun suid with
      | .ok _ => .ok true
      | .error (.valueError _) => .ok false
      | .error (.typeError _) => .ok false

/-- Lowercase hex digit character for a nibble value below 16. -/
def toHexChar (n : Nat) : Char :=
  if n < 10 then Char.ofNat ('0'.toNat + n) else Char.ofNat ('a'.toNat + (n - 10))

/-- Fixed-width big-endian lowercase hex rendering, Python `'%0*x' % v`. -/
def natToHex : Nat → Nat → PyStr
  | 0, _ => []
  | k + 1, v => natToHex k (v / 16) ++ [toHexChar (v % 16)]

/-- The 128-bit integer of `uuid.uuid4()` built from 16 random bytes `r`:
CPython forces the RFC 4122 variant (bits 62-63 become `10`) and the
version nibble (bits 76-79 become `0100`), leaving all other bits of `r`
unchanged. -/
def uuid4Int (r : Nat) : Nat :=
  (r % 2 ^ 128) / 2 ^ 80 * 2 ^ 80 + 4 * 2 ^ 76 +
    (r % 2 ^ 76) / 2 ^ 64 * 2 ^ 64 + 2 * 2 ^ 62 + r % 2 ^ 62

/-- Python `str(uuid)`: the 32 hex digits of the value split 8-4-4-4-12 by
hyphens, as CPython renders `'%032x'` slices. -/
def uuidStr (v : Nat) : PyStr :=
  let h := natToHex 32 v
  h.take 8 ++ '-' :: ((h.drop 8).take 4 ++ '-' :: ((h.drop 12).take 4 ++
    '-' :: ((h.drop 16).take 4 ++ '-' :: h.drop 20)))

/-- Model of `get_suid` from `src/utils/suid.py`: `str(uuid.uuid4())`, with the 16
random bytes of `os.urandom` supplied as the argument. -/
def get_suid (r : Nat) : PyStr := uuidStr (uuid4Int r)

/-- Model of `RlsapiV1Attachment` from `src/models/rlsapi/requests.py`. -/
structure RlsapiV1Attachment where
  contents : PyStr := []
  mimetype : PyStr := []
deriving DecidableEq

/-- Model of `RlsapiV1Terminal` from `src/models/rlsapi/requests.py`. -/
structure RlsapiV1Terminal where
  output : PyStr := []
deriving DecidableEq

/-- Model of `RlsapiV1SystemInfo` from `src/models/rlsapi/requests.py`;
`system_id` carries the alias `id` on its `Field`. -/
structure RlsapiV1SystemInfo where
  os : PyStr := []
  version : PyStr := []
  arch : PyStr := []
  system_id : PyStr := []
deriving DecidableEq

/-- Model of `RlsapiV1CLA` from `src/models/rlsapi/requests.py`. -/
structure RlsapiV1CLA where
  nevra : PyStr := []
  version : PyStr := []
deriving DecidableEq

/-- Model of `RlsapiV1Context` from `src/models/rlsapi/requests.py`. -/
structure RlsapiV1Context where
  stdin : PyStr := []
  attachments : RlsapiV1Attachment := ⟨[], []⟩
  terminal : RlsapiV1Terminal := ⟨[]⟩
  systeminfo : RlsapiV1SystemInfo := ⟨[], [], [], []⟩
  cla : RlsapiV1CLA := ⟨[], []⟩
deriving DecidableEq

/-- Model of `RlsapiV1InferRequest` from `src/models/rlsapi/requests.py` as a
constructed (already validated) value. -/
structure RlsapiV1InferRequest where
  question : PyStr
  context : RlsapiV1Context := ⟨[], ⟨[], []⟩, ⟨[]⟩, ⟨[], [], [], []⟩, ⟨[], []⟩⟩
  skip_rag : Bool := false
deriving DecidableEq

/-- The context value all of whose leaves are the empty string. -/
def emptyContext : RlsapiV1Context := ⟨[], ⟨[], []⟩, ⟨[]⟩, ⟨[], [], [], []⟩, ⟨[], []⟩⟩

/-- One pydantic validation error detail on the `question` field, with the
message pydantic attaches to it. -/
inductive ValErr where
  | missing
  | stringTooShort
  | valueError : PyStr → ValErr
deriving DecidableEq

/-- The message raised by `validate_question` in `requests.py`. -/
def questionEmptyMsg : PyStr := "Question cannot be empty or whitespace-only".toList

/-- The message each error detail carries: pydantic's own texts for a
missing required field and a violated `min_length=1`, and the raised
`ValueError` text for the field validator. -/
def ValErr.message : ValErr → PyStr
  | .missing => "Field required".toList
  | .stringTooShort => "String should have at least 1 character".toList
  | .valueError m => m

/-- The `validate_question` field validator of `RlsapiV1InferRequest`:
strip the value; an empty result raises
`ValueError("Question cannot be empty or whitespace-only")`, otherwise the
stripped string is stored. -/
def validate_question (v : PyStr) : Except ValErr PyStr :=
  let stripped := pyStrip v
  if stripped = [] then .error (.valueError questionEmptyMsg) else .ok stripped

/-- Inbound JSON for the attachments object: each key present or absent. -/
structure AttachmentPayload where
  contents : Option PyStr := none
  mimetype : Option PyStr := none

/-- Inbound JSON for the terminal object. -/
structure TerminalPayload where
  output : Option PyStr := none

/-- Inbound JSON for the systeminfo object.  The wire key `id` (the alias
declared on `system_id`) and the field's own name are carried separately. -/
structure SystemInfoPayload where
  os : Option PyStr := none
  version : Option PyStr := none
  arch : Option PyStr := none
  idKey : Option PyStr := none
  systemIdKey : Option PyStr := none

/-- Inbound JSON for the cla object. -/
structure CLAPayload where
  nevra : Option PyStr := none
  version : Option PyStr := none

/-- Inbound JSON for the context object. -/
structure ContextPayload where
  stdin : Option PyStr := none
  attachments : Option AttachmentPayload := none
  terminal : Option TerminalPayload := none
  systeminfo : Option SystemInfoPayload := none
  cla : Option CLAPayload := none

/-- Inbound JSON for the infer request itself. -/
structure InferPayload where
  question : Option PyStr := none
  context : Option ContextPayload := none
  skip_rag : Option Bool := none

/-- Construction of `RlsapiV1Attachment`: every field optional, defaulting
to the empty string, stored unchanged. -/
def buildAttachment (p : AttachmentPayload) : RlsapiV1Attachment :=
  ⟨p.contents.getD [], p.mimetype.getD []⟩

/-- Construction of `RlsapiV1Terminal`. -/
def buildTerminal (p : TerminalPayload) : RlsapiV1Terminal :=
  ⟨p.output.getD []⟩

/-- Construction of `RlsapiV1SystemInfo`.  `system_id` declares the alias
`id`.  Modelled from the spec: `ConfigurationBase` (models/config.py, not
part of the sources here) is the pydantic base these models inherit; the
spec states that `systemId` may be populated from an incoming field named
`id` as well as from the field's own name, so population by either key is
accepted here, the alias being consulted first.  The spec fixes no
precedence for the case where both keys arrive. -/
def buildSystemInfo (p : SystemInfoPayload) : RlsapiV1SystemInfo :=
  ⟨p.os.getD [], p.version.getD [], p.arch.getD [],
    (p.idKey.orElse fun _ => p.systemIdKey).getD []⟩

/-- Construction of `RlsapiV1CLA`. -/
def buildCLA (p : CLAPayload) : RlsapiV1CLA :=
  ⟨p.nevra.getD [], p.version.getD []⟩

/-- Construction of `RlsapiV1Context`: absent sub-objects become their
default-constructed values. -/
def buildContext (p : ContextPayload) : RlsapiV1Context :=
  ⟨p.stdin.getD [],
    buildAttachment (p.attachments.getD ⟨none, none⟩),
    buildTerminal (p.terminal.getD ⟨none⟩),
    buildSystemInfo (p.systeminfo.getD ⟨none, none, none, none, none⟩),
    buildCLA (p.cla.getD ⟨none, none⟩)⟩

/-- Construction of `RlsapiV1InferRequest` under pydantic v2 semantics:
`question` is declared `Field(..., min_length=1)` with an after-mode field
validator, so a missing key fails the required check, an arriving string
is first checked against `min_length=1`, and only then does
`validate_question` run on it. -/
def buildInferRequest (p : InferPayload) : Except ValErr RlsapiV1InferRequest :=
  match p.question with
  | none => .error .missing
  | some q =>
    if q.length < 1 then .error .stringTooShort
    else
      match validate_question q with
      | .error e => .error e
      | .ok stripped =>
        .ok ⟨stripped, buildContext (p.context.getD ⟨none, none, none, none, none⟩),
          p.skip_rag.getD false⟩

/-- The two-character separator of `get_input_source`. -/
def nlnl : PyStr := '\n' :: '\n' :: []

/-- Python `sep.join(sources)`. -/
def joinSep (sep : PyStr) : List PyStr → PyStr
  | [] => []
  | [x] => x
  | x :: y :: xs => x ++ sep ++ joinSep sep (y :: xs)

/-- Model of `get_input_source` from `src/models/rlsapi/requests.py`: the question,
then each of stdin, attachment contents and terminal output when truthy
(non-empty), joined by a double newline. -/
def get_input_source (r : RlsapiV1InferRequest) : PyStr :=
  let sources : List PyStr := [r.question]
  let sources := if r.context.stdin ≠ [] then sources ++ [r.context.stdin] else sources
  let sources :=
    if r.context.attachments.contents ≠ [] then sources ++ [r.context.attachments.contents]
    else sources
  let sources :=
    if r.context.terminal.output ≠ [] then sources ++ [r.context.terminal.output]
    else sources
  joinSep nlnl sources

/-- Spec-side: the contribution of one optional segment to the combined
input — nothing when empty, the separator and the segment otherwise. -/
def optSeg (x : PyStr) : PyStr := if x = [] then [] else nlnl ++ x

/-- Spec-side: every character is a hex digit. -/
def AllHex (s : PyStr) : Prop := ∀ c ∈ s, (hexVal c).isSome = true

instance (s : PyStr) : Decidable (AllHex s) := List.decidableBAll _ s

/-- Spec-side: a canonical hyphenated 8-4-4-4-12 UUID string, upper or
lower case hex digits. -/
def IsCanonicalUuid (s : PyStr) : Prop :=
  ∃ g1 g2 g3 g4 g5 : PyStr,
    s = g1 ++ '-' :: (g2 ++ '-' :: (g3 ++ '-' :: (g4 ++ '-' :: g5))) ∧
    g1.length = 8 ∧ g2.length = 4 ∧ g3.length = 4 ∧ g4.length = 4 ∧ g5.length = 12 ∧
    AllHex g1 ∧ AllHex g2 ∧ AllHex g3 ∧ AllHex g4 ∧ AllHex g5

/-- Spec-side: a lowercase hex digit (code points 48-57 and 97-102). -/
def isLowerHex (c : Char) : Bool :=
  (48 ≤ c.toNat && c.toNat ≤ 57) || (97 ≤ c.toNat && c.toNat ≤ 102)

/-- Spec-side: every character is a lowercase hex digit. -/
def AllLowerHex (s : PyStr) : Prop := ∀ c ∈ s, isLowerHex c = true

instance (s : PyStr) : Decidable (AllLowerHex s) := List.decidableBAll _ s

/-- Spec-side: the canonical lowercase rendering of a version-4 RFC 4122
UUID: hyphenated 8-4-4-4-12 lowercase hex, the third group starting with
the version digit 4 and the fourth group starting with one of 8, 9, a, b
(the RFC 4122 variant). -/
def IsUuid4Render (s : PyStr) : Prop :=
  ∃ g1 g2 g3 g4 g5 : PyStr,
    s = g1 ++ '-' :: (g2 ++ '-' :: (g3 ++ '-' :: (g4 ++ '-' :: g5))) ∧
    g1.length = 8 ∧ g2.length = 4 ∧ g3.length = 4 ∧ g4.length = 4 ∧ g5.length = 12 ∧
    AllLowerHex g1 ∧ AllLowerHex g2 ∧ AllLowerHex g3 ∧ AllLowerHex g4 ∧ AllLowerHex g5 ∧
    (∃ t, g3 = '4' :: t) ∧
    (∃ c t, g4 = c :: t ∧ (c = '8' ∨ c = '9' ∨ c = 'a' ∨ c = 'b'))

example : check_suid (List.replicate 48 'a') = true := by decide
example : check_suid (convMark ++ List.replicate 48 'a') = true := by decide
example : check_suid ('+' :: List.replicate 47 'a') = true := by decide
example : check_suid (List.replicate 47 'a') = false := by decide
example : check_suid (List.replicate 49 'a') = false := by decide
example : check_suid "550e8400-e29b-41d4-a716-446655440000".toList = true := by decide
example : check_suid (List.replicate 32 '0') = true := by decide
example : check_suid "not-a-uuid".toList = false := by decide
example : get_suid 0 = "00000000-0000-4000-8000-000000000000".toList := by decide
example : check_suid (get_suid 0) = true := by decide
example : buildInferRequest ⟨some " ".toList, none, none⟩ =
    .error (.valueError questionEmptyMsg) := rfl
example : buildInferRequest ⟨some [], none, none⟩ = .error .stringTooShort := rfl
example : buildInferRequest ⟨none, none, none⟩ = .error .missing := rfl
example : buildInferRequest ⟨some "  hi there ".toList, none, none⟩ =
    .ok ⟨"hi there".toList, emptyContext, false⟩ := rfl
example :
    get_input_source ⟨"fix this".toList,
      ⟨"error: x".toList, ⟨[], []⟩, ⟨"bash: nf".toList⟩, ⟨[], [], [], []⟩, ⟨[], []⟩⟩,
      false⟩ = "fix this\n\nerror: x\n\nbash: nf".toList := by decide
example : get_input_source ⟨"q".toList, emptyContext, true⟩ = "q".toList := by decide

theorem isPrefixOf_append_self (l t : PyStr) : l.isPrefixOf (l ++ t) = true := by
  induction l with
  | nil => simp
  | cons a as ih => simp [List.isPrefixOf_cons₂, ih]

theorem exists_append_of_isPrefixOf :
    ∀ {l s : PyStr}, l.isPrefixOf s = true → ∃ t, s = l ++ t := by
  intro l
  induction l with
  | nil => exact fun h => ⟨_, rfl⟩
  | cons a as ih =>
    intro s h
    cases s with
    | nil => simp [List.isPrefixOf] at h
    | cons b bs =>
      simp only [List.isPrefixOf, Bool.and_eq_true, beq_iff_eq] at h
      obtain ⟨t, rfl⟩ := ih h.2
      exact ⟨t, by simp [h.1]⟩

theorem convMark_isPrefixOf_iff (s : PyStr) :
    convMark.isPrefixOf s = true ↔ ∃ t, s = 'c' :: 'o' :: 'n' :: 'v' :: '_' :: t := by
  constructor
  · intro h
    obtain ⟨t, rfl⟩ := exists_append_of_isPrefixOf h
    exact ⟨t, rfl⟩
  · rintro ⟨t, rfl⟩
    exact isPrefixOf_append_self convMark t

theorem dropWhile_eq_self_of_not (p : Char → Bool) (l : PyStr)
    (h : ∀ c ∈ l, p c = false) : l.dropWhile p = l := by
  cases l with
  | nil => rfl
  | cons a as => simp [List.dropWhile_cons, h a (by simp)]

theorem stripEndsWhile_eq_self (p : Char → Bool) (l : PyStr)
    (h : ∀ c ∈ l, p c = false) : stripEndsWhile p l = l := by
  unfold stripEndsWhile
  rw [dropWhile_eq_self_of_not p l h,
    dropWhile_eq_self_of_not p l.reverse (fun c hc => h c (List.mem_reverse.mp hc)),
    List.reverse_reverse]

theorem stripEndsWhile_cons2 (p : Char → Bool) (a b : Char) (l : PyStr)
    (ha : p a = false) (hb : p b = false) :
    ∃ t, stripEndsWhile p (a :: b :: l) = a :: b :: t := by
  unfold stripEndsWhile
  rw [List.dropWhile_cons_of_neg (by simp [ha])]
  have hrev : (a :: b :: l).reverse = l.reverse ++ [b, a] := by simp
  rw [hrev, List.dropWhile_append]
  by_cases hh : (l.reverse.dropWhile p).isEmpty
  · rw [if_pos hh, List.dropWhile_cons_of_neg (by simp [hb])]
    exact ⟨[], rfl⟩
  · rw [if_neg hh]
    exact ⟨(l.reverse.dropWhile p).reverse, by simp⟩

theorem replaceAllAux_cons_ne (pat repl : PyStr) (p0 : Char) (ps : PyStr)
    (hpat : pat = p0 :: ps) (a : Char) (ha : p0 ≠ a) (f : Nat) (l : PyStr) :
    ∃ u, replaceAllAux pat repl f (a :: l) = a :: u := by
  cases f with
  | zero => exact ⟨l, rfl⟩
  | succ f =>
    have hpre : pat.isPrefixOf (a :: l) = false := by
      subst hpat
      simp [List.isPrefixOf, ha]
    exact ⟨replaceAllAux pat repl f l, by simp [replaceAllAux, hpre]⟩

theorem replaceAllAux_cons2_ne (pat repl : PyStr) (p0 : Char) (ps : PyStr)
    (hpat : pat = p0 :: ps) (a b : Char) (ha : p0 ≠ a) (hb : p0 ≠ b) (f : Nat) (l : PyStr) :
    ∃ u, replaceAllAux pat repl f (a :: b :: l) = a :: b :: u := by
  cases f with
  | zero => exact ⟨l, rfl⟩
  | succ f =>
    have hpre : pat.isPrefixOf (a :: b :: l) = false := by
      subst hpat
      simp [List.isPrefixOf, ha]
    obtain ⟨u, hu⟩ := replaceAllAux_cons_ne pat repl p0 ps hpat b hb f l
    exact ⟨u, by simp [replaceAllAux, hpre, hu]⟩

theorem replaceAllAux_eq_self (pat repl : PyStr) (c : Char) (hc : c ∈ pat) :
    ∀ (f : Nat) (s : PyStr), c ∉ s → replaceAllAux pat repl f s = s := by
  intro f
  induction f with
  | zero => intro s _; cases s <;> rfl
  | succ f ih =>
    intro s hs
    cases s with
    | nil => rfl
    | cons a rest =>
      have hpre : pat.isPrefixOf (a :: rest) = false := by
        by_contra hb
        have : pat.isPrefixOf (a :: rest) = true := by
          revert hb; cases pat.isPrefixOf (a :: rest) <;> simp
        obtain ⟨t, ht⟩ := exists_append_of_isPrefixOf this
        exact hs (ht ▸ List.mem_append_left t hc)
      have hrest : c ∉ rest := fun h => hs (List.mem_cons_of_mem a h)
      simp [replaceAllAux, hpre, ih rest hrest]

theorem replaceAll_eq_self (pat repl s : PyStr) (c : Char) (hc : c ∈ pat) (hs : c ∉ s) :
    replaceAll pat repl s = s := by
  unfold replaceAll
  split
  · rfl
  · exact replaceAllAux_eq_self pat repl c hc s.length s hs

theorem hexVal_lt {c : Char} {v : Nat} (h : hexVal c = some v) : v < 16 := by
  unfold hexVal at h
  split_ifs at h with h1 h2 h3
  · cases h; omega
  · cases h; omega
  · cases h; omega

theorem hex_ne_of_none {c d : Char} (h : (hexVal c).isSome = true) (hd : hexVal d = none) :
    c ≠ d := by
  intro e
  subst e
  rw [hd] at h
  simp at h

theorem hex_not_space {c : Char} (h : (hexVal c).isSome = true) : isPySpace c = false := by
  by_contra hb
  have hs : isPySpace c = true := by revert hb; cases isPySpace c <;> simp
  simp only [isPySpace, Bool.or_eq_true, beq_iff_eq] at hs
  obtain (((((((((((h1|h1)|h1)|h1)|h1)|h1)|h1)|h1)|h1)|h1)|h1)|h1) := hs <;> subst h1 <;>
    revert h <;> decide

theorem hex_not_brace {c : Char} (h : (hexVal c).isSome = true) : isBrace c = false := by
  by_contra hb
  have hs : isBrace c = true := by revert hb; cases isBrace c <;> simp
  simp only [isBrace, Bool.or_eq_true, beq_iff_eq] at hs
  obtain (h1|h1) := hs <;> subst h1 <;> revert h <;> decide

theorem pyStrip_eq_self_of_allhex {l : PyStr} (h : AllHex l) : pyStrip l = l :=
  stripEndsWhile_eq_self _ l fun c hc => hex_not_space (h c hc)

theorem hexTailVal_eq_of_hex {c : Char} {v : Nat} (hv : hexVal c = some v)
    (acc : Nat) (rest : PyStr) :
    hexTailVal acc (c :: rest) = hexTailVal (acc * 16 + v) rest := by
  have hc : c ≠ '_' := hex_ne_of_none (by simp [hv]) (by decide)
  rw [hexTailVal.eq_def]
  simp only [hv, if_neg hc]

theorem hexTailVal_isSome_of_allhex :
    ∀ (l : PyStr) (acc : Nat), AllHex l → (hexTailVal acc l).isSome = true := by
  intro l
  induction l with
  | nil => intro acc _; rfl
  | cons c rest ih =>
    intro acc hall
    obtain ⟨v, hv⟩ := Option.isSome_iff_exists.mp (hall c (by simp))
    rw [hexTailVal_eq_of_hex hv acc rest]
    exact ih _ fun d hd => hall d (by simp [hd])

theorem hexTailVal_lt :
    ∀ (l : PyStr) (acc n : Nat), hexTailVal acc l = some n → n < (acc + 1) * 16 ^ l.length := by
  intro l
  induction l with
  | nil =>
    intro acc n h
    have h2 : some acc = some n := h
    cases h2
    simp
  | cons c rest ih =>
    intro acc n h
    by_cases hc : c = '_'
    · subst hc
      cases rest with
      | nil =>
        have h2 : (none : Option Nat) = some n := h
        exact Option.noConfusion h2
      | cons d rest2 =>
        cases hd : hexVal d with
        | none =>
          rw [show hexTailVal acc ('_' :: d :: rest2) = none from by
            rw [hexTailVal.eq_def]; simp [hd]] at h
          exact Option.noConfusion h
        | some v =>
          have hstep : hexTailVal acc ('_' :: d :: rest2) = hexTailVal (acc * 16 + v) rest2 := by
            rw [hexTailVal.eq_def]; simp [hd]
          rw [hstep] at h
          have h2 : hexTailVal acc (d :: rest2) = some n := by
            rw [hexTailVal_eq_of_hex hd acc rest2]; exact h
          calc n < (acc + 1) * 16 ^ (d :: rest2).length := ih acc n h2
          _ ≤ (acc + 1) * 16 ^ ('_' :: d :: rest2).length := by
              apply Nat.mul_le_mul_left
              apply Nat.pow_le_pow_right (by omega)
              simp
    · cases hv : hexVal c with
      | none =>
        rw [show hexTailVal acc (c :: rest) = none from by
          rw [hexTailVal.eq_def]; simp [hc, hv]] at h
        exact Option.noConfusion h
      | some v =>
        rw [hexTailVal_eq_of_hex hv acc rest] at h
        have hv16 := hexVal_lt hv
        calc n < (acc * 16 + v + 1) * 16 ^ rest.length := ih _ n h
        _ ≤ ((acc + 1) * 16) * 16 ^ rest.length := Nat.mul_le_mul_right _ (by omega)
        _ = (acc + 1) * 16 ^ (c :: rest).length := by
            rw [List.length_cons, pow_succ]
            ring

theorem hexDigitsVal_isSome_of_allhex {l : PyStr} (hne : l ≠ []) (hall : AllHex l) :
    (hexDigitsVal l).isSome = true := by
  cases l with
  | nil => exact absurd rfl hne
  | cons c rest =>
    obtain ⟨v, hv⟩ := Option.isSome_iff_exists.mp (hall c (by simp))
    simp only [hexDigitsVal, hv]
    exact hexTailVal_isSome_of_allhex rest v fun d hd => hall d (by simp [hd])

theorem hexDigitsVal_lt {l : PyStr} {n : Nat} (h : hexDigitsVal l = some n) :
    n < 16 ^ l.length := by
  cases l with
  | nil => simp [hexDigitsVal] at h
  | cons c rest =>
    cases hv : hexVal c with
    | none => simp [hexDigitsVal, hv] at h
    | some v =>
      simp only [hexDigitsVal, hv] at h
      have hv16 := hexVal_lt hv
      calc n < (v + 1) * 16 ^ rest.length := hexTailVal_lt rest v n h
      _ ≤ 16 * 16 ^ rest.length := Nat.mul_le_mul_right _ (by omega)
      _ = 16 ^ (c :: rest).length := by rw [List.length_cons, pow_succ]; ring

theorem pyInt16Mag_eq_digits_of_allhex {l : PyStr} (hall : AllHex l) :
    pyInt16Mag l = hexDigitsVal l := by
  match l with
  | [] => rfl
  | [a] => rfl
  | a :: b :: rest =>
    have hb : (hexVal b).isSome = true := hall b (by simp)
    have hbx : b ≠ 'x' := hex_ne_of_none hb (by decide)
    have hbX : b ≠ 'X' := hex_ne_of_none hb (by decide)
    simp [pyInt16Mag, hbx, hbX]

theorem pyInt16Val?_of_allhex {l : PyStr} (hne : l ≠ []) (hall : AllHex l) :
    ∃ n : Nat, pyInt16Val? l = some (Int.ofNat n) ∧ n < 16 ^ l.length := by
  have hstrip : pyStrip l = l := pyStrip_eq_self_of_allhex hall
  cases l with
  | nil => exact absurd rfl hne
  | cons c rest =>
    have hc : (hexVal c).isSome = true := hall c (by simp)
    have hcp : c ≠ '+' := hex_ne_of_none hc (by decide)
    have hcm : c ≠ '-' := hex_ne_of_none hc (by decide)
    have hd := hexDigitsVal_isSome_of_allhex (l := c :: rest) (by simp) hall
    obtain ⟨n, hn⟩ := Option.isSome_iff_exists.mp hd
    refine ⟨n, ?_, hexDigitsVal_lt hn⟩
    simp only [pyInt16Val?, hstrip]
    simp [hcp, hcm, pyInt16Mag_eq_digits_of_allhex hall, hn]

theorem not_convMark_of_allhex {s : PyStr} (hall : AllHex s) :
    convMark.isPrefixOf s = false := by
  by_contra hb
  have ht : convMark.isPrefixOf s = true := by
    revert hb; cases convMark.isPrefixOf s <;> simp
  obtain ⟨t, rfl⟩ := (convMark_isPrefixOf_iff s).mp ht
  have ho := hall 'o' (by simp)
  revert ho
  decide

theorem filter_ne_hyphen_of_allhex {g : PyStr} (hg : AllHex g) :
    g.filter (fun c => c != '-') = g :=
  List.filter_eq_self.mpr fun c hc => by
    have hne : c ≠ '-' := hex_ne_of_none (hg c hc) (by decide)
    simpa using hne

theorem uuid_clean_of_allhex {s : PyStr} (hall : AllHex s) :
    replaceAll urnPat [] s = s ∧ replaceAll uuidPat [] s = s ∧
      stripEndsWhile isBrace s = s ∧ s.filter (fun c => c != '-') = s := by
  have hcolon : ':' ∉ s := by
    intro hc
    have := hall ':' hc
    revert this
    decide
  refine ⟨replaceAll_eq_self _ _ _ ':' (by decide) hcolon,
    replaceAll_eq_self _ _ _ ':' (by decide) hcolon,
    stripEndsWhile_eq_self _ _ fun c hc => hex_not_brace (hall c hc),
    filter_ne_hyphen_of_allhex hall⟩

theorem uuidVal?_allhex32 {s : PyStr} (hall : AllHex s) (h32 : s.length = 32) :
    (uuidVal? s).isSome = true := by
  obtain ⟨h1, h2, h3, h4⟩ := uuid_clean_of_allhex hall
  have hne : s ≠ [] := by
    intro e
    rw [e] at h32
    simp at h32
  obtain ⟨n, hn, hb⟩ := pyInt16Val?_of_allhex hne hall
  have hbN : n < 340282366920938463463374607431768211456 := by
    have h16 : (16 : Nat) ^ s.length = 340282366920938463463374607431768211456 := by
      rw [h32]; norm_num
    rw [h16] at hb
    exact hb
  simp only [uuidVal?, h1, h2, h3, h4, h32, if_pos rfl, hn]
  simp
  omega

theorem uuidVal?_allhex_ne32 {s : PyStr} (hall : AllHex s) (h32 : s.length ≠ 32) :
    (uuidVal? s).isSome = false := by
  obtain ⟨h1, h2, h3, h4⟩ := uuid_clean_of_allhex hall
  simp only [uuidVal?, h1, h2, h3, h4]
  simp [h32]

theorem check_suid_of_allhex48 {s : PyStr} (hall : AllHex s) (hlen : s.length = 48) :
    check_suid s = true := by
  have hpre := not_convMark_of_allhex hall
  have hne : s ≠ [] := by
    intro e
    rw [e] at hlen
    simp at hlen
  obtain ⟨n, hn, -⟩ := pyInt16Val?_of_allhex hne hall
  simp [check_suid, hpre, hlen, hn]

theorem check_suid_conv_allhex48 {s : PyStr} (hall : AllHex s) (hlen : s.length = 48) :
    check_suid (convMark ++ s) = true := by
  have hpre := isPrefixOf_append_self convMark s
  have hdrop : (convMark ++ s).drop 5 = s := List.drop_left' rfl
  have hne : s ≠ [] := by
    intro e
    rw [e] at hlen
    simp at hlen
  obtain ⟨n, hn, -⟩ := pyInt16Val?_of_allhex hne hall
  simp [check_suid, hpre, hdrop, hlen, hn]

theorem check_suid_allhex_other {s : PyStr} (hall : AllHex s)
    (h48 : s.length ≠ 48) (h32 : s.length ≠ 32) : check_suid s = false := by
  have hpre := not_convMark_of_allhex hall
  have := uuidVal?_allhex_ne32 hall h32
  simp [check_suid, hpre, h48, this]

theorem check_suid_of_allhex32 {s : PyStr} (hall : AllHex s) (hlen : s.length = 32) :
    check_suid s = true := by
  have hpre := not_convMark_of_allhex hall
  have h48 : s.length ≠ 48 := by omega
  have := uuidVal?_allhex32 hall hlen
  simp [check_suid, hpre, h48, this]

theorem mem_canonical {s : PyStr} (h : IsCanonicalUuid s) :
    ∀ c ∈ s, c = '-' ∨ (hexVal c).isSome = true := by
  obtain ⟨g1, g2, g3, g4, g5, rfl, -, -, -, -, -, a1, a2, a3, a4, a5⟩ := h
  intro c hc
  simp only [List.mem_append, List.mem_cons] at hc
  rcases hc with hc | hc | hc | hc | hc | hc | hc | hc | hc
  · exact Or.inr (a1 c hc)
  · exact Or.inl hc
  · exact Or.inr (a2 c hc)
  · exact Or.inl hc
  · exact Or.inr (a3 c hc)
  · exact Or.inl hc
  · exact Or.inr (a4 c hc)
  · exact Or.inl hc
  · exact Or.inr (a5 c hc)

theorem uuidVal?_isSome_of_canonical {s : PyStr} (h : IsCanonicalUuid s) :
    (uuidVal? s).isSome = true := by
  have hmem := mem_canonical h
  have hcolon : ':' ∉ s := by
    intro hc
    rcases hmem ':' hc with h1 | h1
    · exact absurd h1 (by decide)
    · revert h1; decide
  have hr1 : replaceAll urnPat [] s = s := replaceAll_eq_self _ _ _ ':' (by decide) hcolon
  have hr2 : replaceAll uuidPat [] s = s := replaceAll_eq_self _ _ _ ':' (by decide) hcolon
  have hr3 : stripEndsWhile isBrace s = s := by
    apply stripEndsWhile_eq_self
    intro c hc
    rcases hmem c hc with hcc | hcc
    · subst hcc; decide
    · exact hex_not_brace hcc
  obtain ⟨g1, g2, g3, g4, g5, hs, l1, l2, l3, l4, l5, a1, a2, a3, a4, a5⟩ := h
  have hfil : s.filter (fun c => c != '-') = g1 ++ (g2 ++ (g3 ++ (g4 ++ g5))) := by
    rw [hs]
    simp only [List.filter_append, List.filter_cons]
    norm_num
    rw [filter_ne_hyphen_of_allhex a1, filter_ne_hyphen_of_allhex a2,
      filter_ne_hyphen_of_allhex a3, filter_ne_hyphen_of_allhex a4,
      filter_ne_hyphen_of_allhex a5]
  have hg : AllHex (g1 ++ (g2 ++ (g3 ++ (g4 ++ g5)))) := by
    intro c hc
    simp only [List.mem_append] at hc
    rcases hc with hc | hc | hc | hc | hc
    · exact a1 c hc
    · exact a2 c hc
    · exact a3 c hc
    · exact a4 c hc
    · exact a5 c hc
  have hglen : (g1 ++ (g2 ++ (g3 ++ (g4 ++ g5)))).length = 32 := by
    simp [l1, l2, l3, l4, l5]
  have hgne : g1 ++ (g2 ++ (g3 ++ (g4 ++ g5))) ≠ [] := by
    intro e
    rw [e] at hglen
    simp at hglen
  obtain ⟨n, hn, hb⟩ := pyInt16Val?_of_allhex hgne hg
  have hbN : n < 340282366920938463463374607431768211456 := by
    have h16 : (16 : Nat) ^ (g1 ++ (g2 ++ (g3 ++ (g4 ++ g5)))).length =
        340282366920938463463374607431768211456 := by
      rw [hglen]; norm_num
    rw [h16] at hb
    exact hb
  simp only [uuidVal?, hr1, hr2, hr3, hfil, hglen, if_pos rfl, hn]
  simp
  omega

theorem check_suid_of_canonical {s : PyStr} (h : IsCanonicalUuid s) : check_suid s = true := by
  have huuid := uuidVal?_isSome_of_canonical h
  obtain ⟨g1, g2, g3, g4, g5, hs, l1, l2, l3, l4, l5, a1, a2, a3, a4, a5⟩ := h
  have hpre : convMark.isPrefixOf s = false := by
    by_contra hb
    have ht : convMark.isPrefixOf s = true := by
      revert hb; cases convMark.isPrefixOf s <;> simp
    obtain ⟨t, hst⟩ := (convMark_isPrefixOf_iff s).mp ht
    cases g1 with
    | nil => simp at l1
    | cons a g1' =>
      cases g1' with
      | nil => simp at l1
      | cons b g1'' =>
        rw [hs] at hst
        simp only [List.cons_append, List.cons.injEq] at hst
        have hbmem : (hexVal b).isSome = true := a1 b (by simp)
        rw [hst.2.1] at hbmem
        revert hbmem
        decide
  have hlen : s.length = 36 := by
    rw [hs]
    simp [l1, l2, l3, l4, l5]
  have h48 : s.length ≠ 48 := by omega
  simp [check_suid, hpre, h48, huuid]

theorem pow2_128 : (2 : Nat) ^ 128 = 340282366920938463463374607431768211456 := by norm_num

theorem pow2_80 : (2 : Nat) ^ 80 = 1208925819614629174706176 := by norm_num

theorem pow2_76 : (2 : Nat) ^ 76 = 75557863725914323419136 := by norm_num

theorem pow2_64 : (2 : Nat) ^ 64 = 18446744073709551616 := by norm_num

theorem pow2_62 : (2 : Nat) ^ 62 = 4611686018427387904 := by norm_num

theorem pow2_60 : (2 : Nat) ^ 60 = 1152921504606846976 := by norm_num

theorem natToHex_length (k : Nat) : ∀ v : Nat, (natToHex k v).length = k := by
  induction k with
  | zero => intro v; rfl
  | succ k ih => intro v; simp [natToHex, ih]

theorem toHexChar_lowerHex {d : Nat} (hd : d < 16) : isLowerHex (toHexChar d) = true := by
  interval_cases d <;> decide

theorem hex_of_lower {c : Char} (h : isLowerHex c = true) : (hexVal c).isSome = true := by
  simp only [isLowerHex, Bool.or_eq_true, Bool.and_eq_true, decide_eq_true_eq] at h
  unfold hexVal
  rcases h with ⟨h1, h2⟩ | ⟨h1, h2⟩
  · rw [if_pos ⟨h1, h2⟩]; rfl
  · rw [if_neg (by omega), if_pos ⟨h1, h2⟩]; rfl

theorem natToHex_mem (k : Nat) : ∀ (v : Nat), ∀ c ∈ natToHex k v, isLowerHex c = true := by
  induction k with
  | zero => intro v c hc; simp [natToHex] at hc
  | succ k ih =>
    intro v c hc
    have hstep : natToHex (k + 1) v = natToHex k (v / 16) ++ [toHexChar (v % 16)] := rfl
    rw [hstep] at hc
    simp only [List.mem_append, List.mem_singleton] at hc
    rcases hc with hc | hc
    · exact ih (v / 16) c hc
    · subst hc; exact toHexChar_lowerHex (Nat.mod_lt _ (by omega))

theorem natToHex_getD (k : Nat) :
    ∀ v i : Nat, i < k → (natToHex k v).getD i ' ' = toHexChar (v / 16 ^ (k - 1 - i) % 16) := by
  induction k with
  | zero => intro v i h; omega
  | succ k ih =>
    intro v i h
    have hstep : natToHex (k + 1) v = natToHex k (v / 16) ++ [toHexChar (v % 16)] := rfl
    rw [hstep]
    by_cases hik : i < k
    · rw [List.getD_append _ _ _ _ (by rw [natToHex_length]; exact hik)]
      rw [ih (v / 16) i hik]
      have hexp : k + 1 - 1 - i = k - i := by omega
      rw [hexp, Nat.div_div_eq_div_mul]
      have he : 16 * 16 ^ (k - 1 - i) = 16 ^ (k - i) := by
        rw [← pow_succ']
        congr 1
        omega
      rw [he]
    · have hik2 : i = k := by omega
      subst hik2
      rw [List.getD_append_right _ _ _ _ (by rw [natToHex_length])]
      simp [natToHex_length]

theorem uuid4Int_digit19 (r : Nat) : uuid4Int r / 16 ^ 19 % 16 = 4 := by
  unfold uuid4Int
  have h16 : (16 : Nat) ^ 19 = 2 ^ 76 := by norm_num
  rw [h16, pow2_128, pow2_80, pow2_76, pow2_64, pow2_62]
  omega

theorem uuid4Int_digit15 (r : Nat) :
    uuid4Int r / 16 ^ 15 % 16 = 8 + r % 2 ^ 62 / 2 ^ 60 ∧ r % 2 ^ 62 / 2 ^ 60 < 4 := by
  unfold uuid4Int
  have h16 : (16 : Nat) ^ 15 = 2 ^ 60 := by norm_num
  rw [h16, pow2_128, pow2_80, pow2_76, pow2_64, pow2_62, pow2_60]
  constructor <;> omega

theorem pyStrip_cons2 {a b : Char} (ha : isPySpace a = false) (hb : isPySpace b = false)
    (l : PyStr) : ∃ t, pyStrip (a :: b :: l) = a :: b :: t :=
  stripEndsWhile_cons2 _ a b l ha hb

theorem pyInt16Val?_co_none (l : PyStr) : pyInt16Val? ('c' :: 'o' :: l) = none := by
  obtain ⟨t, ht⟩ := pyStrip_cons2 (a := 'c') (b := 'o') (by decide) (by decide) l
  have htail : hexTailVal 12 ('o' :: t) = none := by
    rw [hexTailVal.eq_def]
    simp [show hexVal 'o' = none from by decide]
  have hdig : hexDigitsVal ('c' :: 'o' :: t) = none := by
    rw [hexDigitsVal.eq_def]
    simp [show hexVal 'c' = some 12 from by decide, htail]
  have hmag : pyInt16Mag ('c' :: 'o' :: t) = none := by
    rw [pyInt16Mag.eq_def]
    simp [hdig]
  simp only [pyInt16Val?, ht]
  simp [hmag]

theorem uuidVal?_co_none (l : PyStr) : uuidVal? ('c' :: 'o' :: l) = none := by
  obtain ⟨u1, hu1⟩ := replaceAllAux_cons2_ne urnPat [] 'u' "rn:".toList (by decide) 'c' 'o'
    (by decide) (by decide) ('c' :: 'o' :: l).length l
  have hr1 : replaceAll urnPat [] ('c' :: 'o' :: l) = 'c' :: 'o' :: u1 := by
    unfold replaceAll
    rw [if_neg (by decide)]
    exact hu1
  obtain ⟨u2, hu2⟩ := replaceAllAux_cons2_ne uuidPat [] 'u' "uid:".toList (by decide) 'c' 'o'
    (by decide) (by decide) ('c' :: 'o' :: u1).length u1
  have hr2 : replaceAll uuidPat [] ('c' :: 'o' :: u1) = 'c' :: 'o' :: u2 := by
    unfold replaceAll
    rw [if_neg (by decide)]
    exact hu2
  obtain ⟨u3, hu3⟩ := stripEndsWhile_cons2 isBrace 'c' 'o' u2 (by decide) (by decide)
  have hfil : ('c' :: 'o' :: u3).filter (fun c => c != '-') =
      'c' :: 'o' :: u3.filter (fun c => c != '-') := by
    simp [List.filter_cons]
  simp only [uuidVal?, hr1, hr2, hu3, hfil]
  by_cases hlen : ('c' :: 'o' :: u3.filter (fun c => c != '-')).length = 32
  · rw [if_pos hlen]
    simp [pyInt16Val?_co_none]
  · rw [if_neg hlen]

theorem uuidStr_eq (v : Nat) :
    uuidStr v = (natToHex 32 v).take 8 ++ '-' :: (((natToHex 32 v).drop 8).take 4 ++ '-' ::
      (((natToHex 32 v).drop 12).take 4 ++ '-' :: (((natToHex 32 v).drop 16).take 4 ++ '-' ::
        (natToHex 32 v).drop 20))) := rfl

theorem get_suid_render (r : Nat) : IsUuid4Render (get_suid r) := by
  have hlen : (natToHex 32 (uuid4Int r)).length = 32 := natToHex_length 32 _
  have hmem := natToHex_mem 32 (uuid4Int r)
  have hconsV : (natToHex 32 (uuid4Int r)).drop 12 =
      (natToHex 32 (uuid4Int r)).getD 12 ' ' :: (natToHex 32 (uuid4Int r)).drop 13 := by
    rw [List.getD_eq_getElem _ _ (by omega)]
    exact List.drop_eq_getElem_cons (by omega)
  have hdV : (natToHex 32 (uuid4Int r)).getD 12 ' ' = '4' := by
    rw [natToHex_getD 32 _ 12 (by omega)]
    have he : (32 : Nat) - 1 - 12 = 19 := by norm_num
    rw [he, uuid4Int_digit19]
    decide
  have hconsW : (natToHex 32 (uuid4Int r)).drop 16 =
      (natToHex 32 (uuid4Int r)).getD 16 ' ' :: (natToHex 32 (uuid4Int r)).drop 17 := by
    rw [List.getD_eq_getElem _ _ (by omega)]
    exact List.drop_eq_getElem_cons (by omega)
  obtain ⟨hdig15, hlt4⟩ := uuid4Int_digit15 r
  have hdW : (natToHex 32 (uuid4Int r)).getD 16 ' ' = toHexChar (8 + r % 2 ^ 62 / 2 ^ 60) := by
    rw [natToHex_getD 32 _ 16 (by omega)]
    have he : (32 : Nat) - 1 - 16 = 15 := by norm_num
    rw [he, hdig15]
  refine ⟨(natToHex 32 (uuid4Int r)).take 8,
    ((natToHex 32 (uuid4Int r)).drop 8).take 4,
    ((natToHex 32 (uuid4Int r)).drop 12).take 4,
    ((natToHex 32 (uuid4Int r)).drop 16).take 4,
    (natToHex 32 (uuid4Int r)).drop 20,
    uuidStr_eq (uuid4Int r),
    by simp [hlen], by simp [hlen], by simp [hlen], by simp [hlen], by simp [hlen],
    fun c hc => hmem c (List.take_subset _ _ hc),
    fun c hc => hmem c (List.drop_subset _ _ (List.take_subset _ _ hc)),
    fun c hc => hmem c (List.drop_subset _ _ (List.take_subset _ _ hc)),
    fun c hc => hmem c (List.drop_subset _ _ (List.take_subset _ _ hc)),
    fun c hc => hmem c (List.drop_subset _ _ hc),
    ⟨((natToHex 32 (uuid4Int r)).drop 13).take 3, by rw [hconsV, hdV]; simp⟩,
    ⟨toHexChar (8 + r % 2 ^ 62 / 2 ^ 60), ((natToHex 32 (uuid4Int r)).drop 17).take 3,
      by rw [hconsW, hdW]; simp, ?_⟩⟩
  interval_cases he : r % 2 ^ 62 / 2 ^ 60
  · exact Or.inl (by decide)
  · exact Or.inr (Or.inl (by decide))
  · exact Or.inr (Or.inr (Or.inl (by decide)))
  · exact Or.inr (Or.inr (Or.inr (by decide)))

theorem canonical_of_render {s : PyStr} (h : IsUuid4Render s) : IsCanonicalUuid s := by
  obtain ⟨g1, g2, g3, g4, g5, hs, l1, l2, l3, l4, l5, a1, a2, a3, a4, a5, -, -⟩ := h
  exact ⟨g1, g2, g3, g4, g5, hs, l1, l2, l3, l4, l5,
    fun c hc => hex_of_lower (a1 c hc), fun c hc => hex_of_lower (a2 c hc),
    fun c hc => hex_of_lower (a3 c hc), fun c hc => hex_of_lower (a4 c hc),
    fun c hc => hex_of_lower (a5 c hc)⟩

theorem length_of_canonical {s : PyStr} (h : IsCanonicalUuid s) : s.length = 36 := by
  obtain ⟨g1, g2, g3, g4, g5, hs, l1, l2, l3, l4, l5, -, -, -, -, -⟩ := h
  rw [hs]
  simp [l1, l2, l3, l4, l5]

theorem not_convMark_of_canonical {s : PyStr} (h : IsCanonicalUuid s) :
    convMark.isPrefixOf s = false := by
  obtain ⟨g1, g2, g3, g4, g5, hs, l1, l2, l3, l4, l5, a1, a2, a3, a4, a5⟩ := h
  by_contra hb
  have ht : convMark.isPrefixOf s = true := by
    revert hb; cases convMark.isPrefixOf s <;> simp
  obtain ⟨t, hst⟩ := (convMark_isPrefixOf_iff s).mp ht
  cases g1 with
  | nil => simp at l1
  | cons a g1' =>
    cases g1' with
    | nil => simp at l1
    | cons b g1'' =>
      rw [hs] at hst
      simp only [List.cons_append, List.cons.injEq] at hst
      have hbmem : (hexVal b).isSome = true := a1 b (by simp)
      rw [hst.2.1] at hbmem
      revert hbmem
      decide

theorem get_input_source_eq (r : RlsapiV1InferRequest) :
    get_input_source r = r.question ++ optSeg r.context.stdin ++
      optSeg r.context.attachments.contents ++ optSeg r.context.terminal.output := by
  rcases r with ⟨q, ⟨stdin, ⟨contents, mt⟩, ⟨out⟩, si, cl⟩, skip⟩
  by_cases h1 : stdin = [] <;> by_cases h2 : contents = [] <;> by_cases h3 : out = [] <;>
    simp [get_input_source, optSeg, joinSep, nlnl, h1, h2, h3]

/-- C1 counterexample: an empty-string question is rejected by the
`min_length=1` constraint before the field validator runs, and an absent
question by the required-field check, so in neither case does the
validation error carry the message
"Question cannot be empty or whitespace-only" that the claim asserts for
every empty-after-trimming question. -/
theorem C1_counterexample :
    buildInferRequest ⟨some [], none, none⟩ = .error .stringTooShort ∧
      ValErr.stringTooShort.message ≠ questionEmptyMsg ∧
      buildInferRequest ⟨none, none, none⟩ = .error .missing ∧
      ValErr.missing.message ≠ questionEmptyMsg :=
  ⟨rfl, by decide, rfl, by decide⟩

/-- C1 (amended): construction fails for every question whose trimmed value
is empty — an absent question with the required-field error, an empty
string with pydantic's `min_length=1` error, and a non-empty whitespace-only
string with a `ValueError` carrying
"Question cannot be empty or whitespace-only"; for every question whose
trimmed value is non-empty, construction succeeds and the stored question
is the trimmed string. -/
theorem C1_amended (p : InferPayload) :
    (p.question = none → buildInferRequest p = .error .missing) ∧
      (∀ q : PyStr, p.question = some q → pyStrip q = [] →
        (q = [] → buildInferRequest p = .error .stringTooShort) ∧
        (q ≠ [] → buildInferRequest p = .error (.valueError questionEmptyMsg))) ∧
      (∀ q : PyStr, p.question = some q → pyStrip q ≠ [] →
        ∃ r : RlsapiV1InferRequest, buildInferRequest p = .ok r ∧ r.question = pyStrip q ∧
          r.context = buildContext (p.context.getD ⟨none, none, none, none, none⟩) ∧
          r.skip_rag = p.skip_rag.getD false) := by
  refine ⟨?_, ?_, ?_⟩
  · intro h
    simp [buildInferRequest, h]
  · intro q hq hstrip
    constructor
    · intro he
      subst he
      simp [buildInferRequest, hq]
    · intro hne
      have hlen : ¬ q.length < 1 := by
        cases q with
        | nil => exact absurd rfl hne
        | cons a l => simp
      simp [buildInferRequest, hq, hlen, validate_question, hstrip]
  · intro q hq hne
    have hq0 : q ≠ [] := by
      intro he
      subst he
      exact hne rfl
    have hlen : ¬ q.length < 1 := by
      cases q with
      | nil => exact absurd rfl hq0
      | cons a l => simp
    refine ⟨⟨pyStrip q, buildContext (p.context.getD ⟨none, none, none, none, none⟩),
      p.skip_rag.getD false⟩, ?_, rfl, rfl, rfl⟩
    simp [buildInferRequest, hq, hlen, validate_question, hne]

/-- C1 witness: the amended statement evaluated on the payloads with
question `" "`, a single NO-BREAK SPACE, `" hi "`, `""` and no question at
all. -/
theorem C1_amended_witness :
    buildInferRequest ⟨some " ".toList, none, none⟩ =
        .error (.valueError questionEmptyMsg) ∧
      buildInferRequest ⟨some ['\xa0'], none, none⟩ =
        .error (.valueError questionEmptyMsg) ∧
      (∃ r : RlsapiV1InferRequest,
        buildInferRequest ⟨some " hi ".toList, none, none⟩ = .ok r ∧
        r.question = pyStrip " hi ".toList ∧
        r.context = buildContext ⟨none, none, none, none, none⟩ ∧ r.skip_rag = false) ∧
      buildInferRequest ⟨some [], none, none⟩ = .error .stringTooShort ∧
      buildInferRequest ⟨none, none, none⟩ = .error .missing :=
  ⟨((C1_amended ⟨some " ".toList, none, none⟩).2.1 " ".toList rfl (by decide)).2 (by decide),
    ((C1_amended ⟨some ['\xa0'], none, none⟩).2.1 ['\xa0'] rfl (by decide)).2 (by decide),
    (C1_amended ⟨some " hi ".toList, none, none⟩).2.2 " hi ".toList rfl (by decide),
    ((C1_amended ⟨some [], none, none⟩).2.1 [] rfl (by decide)).1 rfl,
    (C1_amended ⟨none, none, none⟩).1 rfl⟩

/-- C2: `get_input_source` is the validated question followed, for each of
stdin, attachment contents and terminal output in that order, by the
two-character separator of two newlines and the segment exactly when that
segment is non-empty; on the spec's example it yields
"fix this", two newlines, "error: x", two newlines, "bash: nf", and on an
empty context it yields exactly the question. -/
theorem C2_combined_input :
    (∀ r : RlsapiV1InferRequest, get_input_source r =
      r.question ++ optSeg r.context.stdin ++ optSeg r.context.attachments.contents ++
        optSeg r.context.terminal.output) ∧
      get_input_source ⟨"fix this".toList,
        ⟨"error: x".toList, ⟨[], []⟩, ⟨"bash: nf".toList⟩, ⟨[], [], [], []⟩, ⟨[], []⟩⟩,
        false⟩ = "fix this\n\nerror: x\n\nbash: nf".toList ∧
      (∀ (q : PyStr) (b : Bool), get_input_source ⟨q, emptyContext, b⟩ = q) := by
  refine ⟨get_input_source_eq, by decide, ?_⟩
  intro q b
  rw [get_input_source_eq]
  simp [emptyContext, optSeg]

/-- C3 counterexample: the 48-character string made of a plus sign and 47
hex digits contains a character that is not a hex digit, yet `check_suid`
accepts it, because Python `int(x, 16)` accepts an optional sign. -/
theorem C3_counterexample :
    ('+' :: List.replicate 47 'a').length = 48 ∧
      '+' ∈ ('+' :: List.replicate 47 'a') ∧ hexVal '+' = none ∧
      check_suid ('+' :: List.replicate 47 'a') = true :=
  ⟨by decide, by decide, by decide, by decide⟩

/-- C3 (amended): when the conv_-stripped part has exactly 48 characters,
`check_suid` returns true exactly when Python `int(part, 16)` succeeds —
hence true for a 48-hex-digit string with or without the conv_ marker, and
false for 47- or 49-character hex strings; a 48-character string is
rejected only when that parse fails, not merely because it contains a
non-hex-digit character (signs, surrounding whitespace, a 0x prefix and
inner underscores are accepted by the parse). -/
theorem C3_amended :
    (∀ s : PyStr, (if convMark.isPrefixOf s then s.drop 5 else s).length = 48 →
        check_suid s = (pyInt16Val? (if convMark.isPrefixOf s then s.drop 5 else s)).isSome) ∧
      (∀ s : PyStr, s.length = 48 → AllHex s →
        check_suid s = true ∧ check_suid (convMark ++ s) = true) ∧
      (∀ s : PyStr, AllHex s → (s.length = 47 ∨ s.length = 49) → check_suid s = false) := by
  refine ⟨?_, ?_, ?_⟩
  · intro s h48
    exact if_pos h48
  · intro s h48 hall
    exact ⟨check_suid_of_allhex48 hall h48, check_suid_conv_allhex48 hall h48⟩
  · intro s hall hlen
    exact check_suid_allhex_other hall (by omega) (by omega)

/-- C3 witness: the amended statement at 48, 47 and 49 copies of the hex
digit a, with and without the conv_ marker. -/
theorem C3_amended_witness :
    check_suid (List.replicate 48 'a') = true ∧
      check_suid (convMark ++ List.replicate 48 'a') = true ∧
      check_suid (List.replicate 47 'a') = false ∧
      check_suid (List.replicate 49 'a') = false := by
  have hall48 : AllHex (List.replicate 48 'a') := fun c hc => by
    rw [List.eq_of_mem_replicate hc]; decide
  have hall47 : AllHex (List.replicate 47 'a') := fun c hc => by
    rw [List.eq_of_mem_replicate hc]; decide
  have hall49 : AllHex (List.replicate 49 'a') := fun c hc => by
    rw [List.eq_of_mem_replicate hc]; decide
  obtain ⟨h1, h2, h3⟩ := C3_amended
  exact ⟨(h2 _ (by decide) hall48).1, (h2 _ (by decide) hall48).2,
    h3 _ hall47 (Or.inl (by decide)), h3 _ hall49 (Or.inr (by decide))⟩

/-- C4 counterexample: the 32-character all-zero hex string has no hyphen
at all, yet `check_suid` accepts it — `uuid.UUID` removes every hyphen
before checking the 32-character length, so canonical hyphenation is not
required. -/
theorem C4_counterexample :
    (List.replicate 32 '0').length = 32 ∧ '-' ∉ List.replicate 32 '0' ∧
      check_suid (List.replicate 32 '0') = true :=
  ⟨by decide, by decide, by decide⟩

/-- C4 (amended): when the conv_-stripped part does not have exactly 48
characters, `check_suid` returns true exactly when CPython
`uuid.UUID(candidate)` accepts the original string; every canonical
hyphenated 8-4-4-4-12 UUID is accepted, but so is a bare 32-hex-character
string with no hyphens, since the parser deletes all hyphens (and `urn:` /
`uuid:` text and surrounding braces) before checking for 32 hex-parseable
characters. -/
theorem C4_amended :
    (∀ s : PyStr, (if convMark.isPrefixOf s then s.drop 5 else s).length ≠ 48 →
        check_suid s = (uuidVal? s).isSome) ∧
      (∀ s : PyStr, IsCanonicalUuid s → check_suid s = true) ∧
      (∀ s : PyStr, s.length = 32 → AllHex s → check_suid s = true) := by
  refine ⟨?_, fun s h => check_suid_of_canonical h,
    fun s h32 hall => check_suid_of_allhex32 hall h32⟩
  intro s h48
  exact if_neg h48

/-- C4 witness: the amended statement at the spec's example UUID and at the
hyphen-free all-zero 32-hex string. -/
theorem C4_amended_witness :
    check_suid "550e8400-e29b-41d4-a716-446655440000".toList = true ∧
      check_suid (List.replicate 32 '0') = true ∧
      check_suid "not-a-uuid".toList = (uuidVal? "not-a-uuid".toList).isSome := by
  obtain ⟨h1, h2, h3⟩ := C4_amended
  refine ⟨h2 _ ?_, h3 _ (by decide) (fun c hc => by rw [List.eq_of_mem_replicate hc]; decide),
    h1 _ (by decide)⟩
  exact ⟨"550e8400".toList, "e29b".toList, "41d4".toList, "a716".toList,
    "446655440000".toList, by decide, by decide, by decide, by decide, by decide, by decide,
    by decide, by decide, by decide, by decide, by decide⟩

/-- C5: converting to the external conv_-prefixed form and then
normalizing is the identity on every identifier that does not already
carry the conv_ marker. -/
theorem C5_normalize_toExternal (x : PyStr) (h : convMark.isPrefixOf x = false) :
    normalize_conversation_id (to_llama_stack_conversation_id x) = x := by
  have happ := isPrefixOf_append_self convMark x
  have hdrop : (convMark ++ x).drop 5 = x := List.drop_left' rfl
  simp [to_llama_stack_conversation_id, h, normalize_conversation_id, happ, hdrop]

/-- C5 witness: the round trip on the unprefixed identifier abc. -/
theorem C5_witness :
    convMark.isPrefixOf "abc".toList = false ∧
      normalize_conversation_id (to_llama_stack_conversation_id "abc".toList) = "abc".toList :=
  ⟨by decide, C5_normalize_toExternal "abc".toList (by decide)⟩

/-- C6: none of the identifier operations raises — `check_suid` with its
try/except structure explicit always returns a boolean rather than
propagating an exception, returns false on every non-string value, and
`normalize_conversation_id` / `to_llama_stack_conversation_id` perform
unconditional string surgery (drop or keep, append or keep) on every
string whether or not it is a valid identifier. -/
theorem C6_no_raise :
    (∀ v : PyObj, check_suid_run v = .ok (check_suid_obj v)) ∧
      (∀ n : Nat, check_suid_obj (.nonStr n) = false) ∧
      (∀ s : PyStr, normalize_conversation_id s = s ∨
        normalize_conversation_id s = s.drop 5) ∧
      (∀ s : PyStr, to_llama_stack_conversation_id s = s ∨
        to_llama_stack_conversation_id s = convMark ++ s) := by
  refine ⟨?_, fun n => rfl, ?_, ?_⟩
  · intro v
    cases v with
    | nonStr n => rfl
    | str s =>
      show (if (if convMark.isPrefixOf s then s.drop 5 else s).length = 48
        then match pyInt16Run (if convMark.isPrefixOf s then s.drop 5 else s) with
          | .ok _ => Except.ok true
          | .error (.valueError _) => Except.ok false
          | .error e => Except.error e
        else match uuidRun s with
          | .ok _ => Except.ok true
          | .error (.valueError _) => Except.ok false
          | .error (.typeError _) => Except.ok false) = Except.ok (check_suid s)
      generalize hgen : (if convMark.isPrefixOf s then s.drop 5 else s) = hp
      have hcs : check_suid s =
          (if hp.length = 48 then (pyInt16Val? hp).isSome else (uuidVal? s).isSome) := by
        rw [← hgen]
        rfl
      rw [hcs]
      by_cases h48 : hp.length = 48
      · rw [if_pos h48, if_pos h48]
        cases hx : pyInt16Val? hp with
        | some v => simp [pyInt16Run, hx]
        | none => simp [pyInt16Run, hx]
      · rw [if_neg h48, if_neg h48]
        cases hx : uuidVal? s with
        | some v => simp [uuidRun, hx]
        | none => simp [uuidRun, hx]
  · intro s
    by_cases h : convMark.isPrefixOf s = true
    · exact Or.inr (by simp [normalize_conversation_id, h])
    · have hf : convMark.isPrefixOf s = false := by
        revert h; cases convMark.isPrefixOf s <;> simp
      exact Or.inl (by simp [normalize_conversation_id, hf])
  · intro s
    by_cases h : convMark.isPrefixOf s = true
    · exact Or.inl (by simp [to_llama_stack_conversation_id, h])
    · have hf : convMark.isPrefixOf s = false := by
        revert h; cases convMark.isPrefixOf s <;> simp
      exact Or.inr (by simp [to_llama_stack_conversation_id, hf])

/-- C7: every string produced by `get_suid`, for any 16 random bytes, is
the canonical lowercase hyphenated rendering of a version-4 RFC 4122 UUID,
passes `check_suid`, does not carry the conv_ marker (so no prefix is
stripped), and has length 36, never 48 — hence it is accepted through the
UUID branch. -/
theorem C7_generate_valid (r : Nat) :
    IsUuid4Render (get_suid r) ∧ check_suid (get_suid r) = true ∧
      convMark.isPrefixOf (get_suid r) = false ∧ (get_suid r).length = 36 := by
  have hrender := get_suid_render r
  have hcanon := canonical_of_render hrender
  exact ⟨hrender, check_suid_of_canonical hcanon, not_convMark_of_canonical hcanon,
    length_of_canonical hcanon⟩

/-- C8: `to_llama_stack_conversation_id` is idempotent and its result
always begins with the conv_ marker. -/
theorem C8_toExternal_idempotent (x : PyStr) :
    to_llama_stack_conversation_id (to_llama_stack_conversation_id x) =
        to_llama_stack_conversation_id x ∧
      convMark.isPrefixOf (to_llama_stack_conversation_id x) = true := by
  by_cases h : convMark.isPrefixOf x = true
  · simp [to_llama_stack_conversation_id, h]
  · have hf : convMark.isPrefixOf x = false := by
      revert h; cases convMark.isPrefixOf x <;> simp
    have happ := isPrefixOf_append_self convMark x
    simp [to_llama_stack_conversation_id, hf, happ]

/-- C9: `system_id` can be populated from the wire key `id` (its declared
alias) or from its own name and defaults to the empty string, and every
other constructed field — the systeminfo strings, the context leaves,
`skip_rag` — is stored unchanged with the type's empty value as default. -/
theorem C9_aliasing_passthrough :
    (∀ (p : SystemInfoPayload) (v : PyStr), p.idKey = some v →
        (buildSystemInfo p).system_id = v) ∧
      (∀ (p : SystemInfoPayload) (v : PyStr), p.idKey = none → p.systemIdKey = some v →
        (buildSystemInfo p).system_id = v) ∧
      (∀ p : SystemInfoPayload, p.idKey = none → p.systemIdKey = none →
        (buildSystemInfo p).system_id = []) ∧
      (∀ p : SystemInfoPayload, (buildSystemInfo p).os = p.os.getD [] ∧
        (buildSystemInfo p).version = p.version.getD [] ∧
        (buildSystemInfo p).arch = p.arch.getD []) ∧
      (∀ c : ContextPayload, (buildContext c).stdin = c.stdin.getD [] ∧
        (buildContext c).attachments = buildAttachment (c.attachments.getD ⟨none, none⟩) ∧
        (buildContext c).terminal = buildTerminal (c.terminal.getD ⟨none⟩) ∧
        (buildContext c).cla = buildCLA (c.cla.getD ⟨none, none⟩)) ∧
      (∀ a : AttachmentPayload, buildAttachment a = ⟨a.contents.getD [], a.mimetype.getD []⟩) ∧
      (∀ (ip : InferPayload) (r : RlsapiV1InferRequest), buildInferRequest ip = .ok r →
        r.skip_rag = ip.skip_rag.getD false ∧
        r.context = buildContext (ip.context.getD ⟨none, none, none, none, none⟩)) ∧
      buildContext ⟨none, none, none, none, none⟩ = emptyContext := by
  refine ⟨?_, ?_, ?_, fun p => ⟨rfl, rfl, rfl⟩, fun c => ⟨rfl, rfl, rfl, rfl⟩,
    fun a => rfl, ?_, rfl⟩
  · intro p v h
    simp [buildSystemInfo, h, Option.orElse]
  · intro p v h1 h2
    simp [buildSystemInfo, h1, h2, Option.orElse]
  · intro p h1 h2
    simp [buildSystemInfo, h1, h2, Option.orElse]
  · intro ip r h
    obtain ⟨qo, co, ko⟩ := ip
    cases qo with
    | none => exact Except.noConfusion h
    | some q =>
      have h' : (if q.length < 1
          then (Except.error ValErr.stringTooShort : Except ValErr RlsapiV1InferRequest)
          else match validate_question q with
            | .error e => .error e
            | .ok stripped =>
              .ok ⟨stripped, buildContext (co.getD ⟨none, none, none, none, none⟩),
                ko.getD false⟩) = .ok r := h
      by_cases hl : q.length < 1
      · rw [if_pos hl] at h'
        exact Except.noConfusion h'
      · rw [if_neg hl] at h'
        cases hv : validate_question q with
        | error e => rw [hv] at h'; exact Except.noConfusion h'
        | ok st =>
          rw [hv] at h'
          cases h'
          exact ⟨rfl, rfl⟩

/-- C9 witness: `system_id` populated through the alias key, through its
own name, defaulted, and `skip_rag` / context passed through an accepted
request. -/
theorem C9_witness :
    (buildSystemInfo ⟨some "RHEL".toList, none, none, some "id1".toList, none⟩).system_id =
        "id1".toList ∧
      (buildSystemInfo ⟨none, none, none, none, some "id2".toList⟩).system_id = "id2".toList ∧
      (buildSystemInfo ⟨none, none, none, none, none⟩).system_id = [] ∧
      ((⟨"q".toList, emptyContext, true⟩ : RlsapiV1InferRequest).skip_rag =
          (some true : Option Bool).getD false ∧
        (⟨"q".toList, emptyContext, true⟩ : RlsapiV1InferRequest).context =
          buildContext ((none : Option ContextPayload).getD ⟨none, none, none, none, none⟩)) :=
  ⟨C9_aliasing_passthrough.1 _ _ rfl,
    C9_aliasing_passthrough.2.1 _ _ rfl rfl,
    C9_aliasing_passthrough.2.2.1 _ rfl rfl,
    C9_aliasing_passthrough.2.2.2.2.2.2.1 ⟨some "q".toList, none, some true⟩
      ⟨"q".toList, emptyContext, true⟩ rfl⟩

/-- C10: stripping the conv_ marker preserves validity — whenever
`check_suid` accepts a string, it also accepts its normalized form. -/
theorem C10_normalize_preserves_valid (s : PyStr) (h : check_suid s = true) :
    check_suid (normalize_conversation_id s) = true := by
  by_cases hp : convMark.isPrefixOf s = true
  · obtain ⟨t, rfl⟩ := exists_append_of_isPrefixOf hp
    have hdrop : (convMark ++ t).drop 5 = t := List.drop_left' rfl
    have hnorm : normalize_conversation_id (convMark ++ t) = t := by
      simp [normalize_conversation_id, hp, hdrop]
    rw [hnorm]
    by_cases h48 : t.length = 48
    · have hcheck : (pyInt16Val? t).isSome = true := by
        have heq : check_suid (convMark ++ t) = (pyInt16Val? t).isSome := by
          have h48' : ((convMark ++ t).drop 5).length = 48 := by rw [hdrop]; exact h48
          show (if (if convMark.isPrefixOf (convMark ++ t)
            then (convMark ++ t).drop 5 else convMark ++ t).length = 48
            then (pyInt16Val? (if convMark.isPrefixOf (convMark ++ t)
              then (convMark ++ t).drop 5 else convMark ++ t)).isSome
            else (uuidVal? (convMark ++ t)).isSome) = (pyInt16Val? t).isSome
          rw [if_pos hp, hdrop, if_pos h48]
        rw [heq] at h
        exact h
      have hpt : convMark.isPrefixOf t = false := by
        by_contra hb
        have htrue : convMark.isPrefixOf t = true := by
          revert hb; cases convMark.isPrefixOf t <;> simp
        obtain ⟨u, rfl⟩ := (convMark_isPrefixOf_iff t).mp htrue
        rw [pyInt16Val?_co_none] at hcheck
        simp at hcheck
      show (if (if convMark.isPrefixOf t then t.drop 5 else t).length = 48
        then (pyInt16Val? (if convMark.isPrefixOf t then t.drop 5 else t)).isSome
        else (uuidVal? t).isSome) = true
      have hift : (if convMark.isPrefixOf t then t.drop 5 else t) = t := if_neg (by simp [hpt])
      rw [hift, if_pos h48]
      exact hcheck
    · exfalso
      have huuid : uuidVal? (convMark ++ t) = none := uuidVal?_co_none ('n' :: 'v' :: '_' :: t)
      have heq : check_suid (convMark ++ t) = (uuidVal? (convMark ++ t)).isSome := by
        have h48' : ((convMark ++ t).drop 5).length ≠ 48 := by rw [hdrop]; exact h48
        show (if (if convMark.isPrefixOf (convMark ++ t)
          then (convMark ++ t).drop 5 else convMark ++ t).length = 48
          then (pyInt16Val? (if convMark.isPrefixOf (convMark ++ t)
            then (convMark ++ t).drop 5 else convMark ++ t)).isSome
          else (uuidVal? (convMark ++ t)).isSome) = (uuidVal? (convMark ++ t)).isSome
        rw [if_pos hp, hdrop, if_neg h48]
      rw [heq, huuid] at h
      simp at h
  · have hf : convMark.isPrefixOf s = false := by
      revert hp; cases convMark.isPrefixOf s <;> simp
    rw [show normalize_conversation_id s = s from by simp [normalize_conversation_id, hf]]
    exact h

/-- C10 witness: a valid conv_-prefixed 48-hex identifier stays valid
after normalization. -/
theorem C10_witness :
    check_suid (convMark ++ List.replicate 48 'a') = true ∧
      check_suid (normalize_conversation_id (convMark ++ List.replicate 48 'a')) = true :=
  ⟨by decide, C10_normalize_preserves_valid _ (by decide)⟩

end Lightspeed
